import Mathlib

/-
Shallow embedding of the mc5 labeled-document store (crate mc5_core).

Source files embedded:
  - src/mc5_core/src/label.rs   : Label, its byte encodings and parsing
  - src/mc5_core/src/bucket.rs  : McBucket and its operations

Modelling conventions:
  - Strings are modelled at the char level. Rust stores labels as UTF-8
    byte strings; byte-wise lexicographic comparison of UTF-8 equals
    codepoint-wise comparison, and UTF-8 encode/decode is a bijection on
    valid strings, so the char-level model is faithful for equality,
    ordering, parsing and splitting on the ASCII separator.
  - Document ids are u64 pairs (Uuid::as_u64_pair); only equality and
    ordering of ids are observed by the bucket code, so they are modelled
    as pairs of naturals.  Uuid ordering is numeric on the 128-bit value,
    which is lexicographic on the (high, low) u64 pair.
  - Each sled tree is modelled as a function from its key type to an
    optional stored value; serialization (flexbuffers) is deterministic
    and injective on the stored shapes, so stored bytes are identified
    with the decoded values.
  - Rust Vec::sort is a stable sort; over the total antisymmetric orders
    used here (ids and labels), the sorted permutation of a list is
    unique as a list, so List.insertionSort models it exactly.
    Vec::dedup removes consecutive duplicates, which is
    List.destutter (· ≠ ·).
-/

namespace Mc5

abbrev DocId : Type := Nat × Nat

abbrev Payload : Type := List Nat

/-- A key and value pair, from Label in src/mc5_core/src/label.rs. -/
structure Label where
  key : String
  value : String
deriving DecidableEq

/-- Forward byte encoding of a label, from Label::as_bytes. -/
def Label.as_bytes (l : Label) : List Char := l.key.data ++ '=' :: l.value.data

/-- Reverse byte encoding of a label, from Label::as_bytes_rev. -/
def Label.as_bytes_rev (l : Label) : List Char := l.value.data ++ '=' :: l.key.data

/-- Splitting a char list at the first occurrence of a separator, from
str::split_once as used by Label::from_bytes. -/
def splitOnce (sep : Char) : List Char → Option (List Char × List Char)
  | [] => none
  | c :: cs =>
    if c = sep then some ([], cs)
    else
      match splitOnce sep cs with
      | some (lhs, rhs) => some (c :: lhs, rhs)
      | none => none

/-- Parsing a label from its forward byte form, from Label::from_bytes. -/
def Label.from_bytes (s : List Char) : Option Label :=
  match splitOnce '=' s with
  | some (lhs, rhs) => some ⟨⟨lhs⟩, ⟨rhs⟩⟩
  | none => none

/-- Byte-wise (here char-wise) lexicographic strict order on strings, as used
by the derived Ord of Rust String. -/
def charListLt : List Char → List Char → Bool
  | [], [] => false
  | [], _ :: _ => true
  | _ :: _, [] => false
  | a :: as, b :: bs => if a < b then true else if b < a then false else charListLt as bs

/-- The derived Ord of Label: lexicographic on the key field then the value
field, as a boolean less-or-equal test. -/
def labelLe (a b : Label) : Bool :=
  if a.key = b.key then a.value = b.value || charListLt a.value.data b.value.data
  else charListLt a.key.data b.key.data

/-- Propositional form of labelLe, used as the sorting relation. -/
def labelLeR (a b : Label) : Prop := labelLe a b = true

instance : DecidableRel labelLeR := fun a b => inferInstanceAs (Decidable (labelLe a b = true))

/-- The Uuid order on ids: lexicographic on the (high, low) u64 pair. -/
def idLe (a b : DocId) : Prop := a.1 < b.1 ∨ (a.1 = b.1 ∧ a.2 ≤ b.2)

instance : DecidableRel idLe :=
  fun a b => inferInstanceAs (Decidable (a.1 < b.1 ∨ (a.1 = b.1 ∧ a.2 ≤ b.2)))

instance : IsTotal DocId idLe := ⟨by intro a b; unfold idLe; omega⟩

instance : IsTrans DocId idLe := ⟨by intro a b c; unfold idLe; omega⟩

/-- Strict version of the id order. -/
def idLt (a b : DocId) : Prop := a.1 < b.1 ∨ (a.1 = b.1 ∧ a.2 < b.2)

instance : DecidableRel idLt :=
  fun a b => inferInstanceAs (Decidable (a.1 < b.1 ∨ (a.1 = b.1 ∧ a.2 < b.2)))

instance : IsTrans DocId idLt := ⟨by intro a b c; unfold idLt; omega⟩

/-- Rust sort followed by dedup on a posting list, as performed by
McBucket::upsert_label and McBucket::search_inclusive. -/
def canonList (l : List DocId) : List DocId := (l.insertionSort idLe).destutter (· ≠ ·)

/-- Rust sort followed by dedup on a label list, as performed by
McBucket::add_document_labels and McBucket::remove_document_labels. -/
def canonLabels (l : List Label) : List Label := (l.insertionSort labelLeR).destutter (· ≠ ·)

/-- A sled tree, modelled as a map from keys to optionally present values. -/
def Tree (κ ν : Type) : Type := κ → Option ν

/-- Point update of a tree: sled insert writes some value, sled remove
writes none. -/
def upd {κ ν : Type} [DecidableEq κ] (t : Tree κ ν) (k : κ) (v : Option ν) : Tree κ ν :=
  fun q => if q = k then v else t q

/-- The four trees owned by a bucket, from McBucket in src/mc5_core/src/bucket.rs. -/
structure McBucket where
  documents : Tree DocId Payload
  docs_labels : Tree DocId (List Label)
  labels_kev : Tree (List Char) (List DocId)
  labels_vek : Tree (List Char) (List DocId)

/-- McBucket::upsert_label: read the list (fresh singleton if absent), push
the id, sort, dedup, write back. -/
def upsert_label (t : Tree (List Char) (List DocId)) (k : List Char) (id : DocId) :
    Tree (List Char) (List DocId) :=
  match t k with
  | some docs => upd t k (some (canonList (docs ++ [id])))
  | none => upd t k (some [id])

/-- McBucket::downsert_label: if the stored list has length one the key is
removed outright; otherwise the entries whose first component differs from
the first component of the retracted id AND whose second component differs
from its second component are kept and the result is written back.  A
missing key is left alone (the code only logs a warning). -/
def downsert_label (t : Tree (List Char) (List DocId)) (k : List Char) (id : DocId) :
    Tree (List Char) (List DocId) :=
  match t k with
  | some ids =>
    if ids.length = 1 then upd t k none
    else upd t k (some (ids.filter (fun i => i.1 != id.1 && i.2 != id.2)))
  | none => t

/-- McBucket::insert: write the payload and the label list (exactly as
passed) under the fresh id, then upsert each label into KEV and VEK. -/
def McBucket.insert (s : McBucket) (id : DocId) (doc : Payload) (labels : List Label) :
    McBucket :=
  { documents := upd s.documents id (some doc)
    docs_labels := upd s.docs_labels id (some labels)
    labels_kev := labels.foldl (fun t l => upsert_label t l.as_bytes id) s.labels_kev
    labels_vek := labels.foldl (fun t l => upsert_label t l.as_bytes_rev id) s.labels_vek }

/-- McBucket::delete: remove the document; if a label set was stored, remove
it and downsert the id from every posting list it names. -/
def McBucket.delete (s : McBucket) (id : DocId) : McBucket :=
  match s.docs_labels id with
  | some labels =>
    { documents := upd s.documents id none
      docs_labels := upd s.docs_labels id none
      labels_kev := labels.foldl (fun t l => downsert_label t l.as_bytes id) s.labels_kev
      labels_vek := labels.foldl (fun t l => downsert_label t l.as_bytes_rev id) s.labels_vek }
  | none => { s with documents := upd s.documents id none }

/-- McBucket::add_document_labels: if a label set is stored for the id it is
extended, sorted, deduped and written back; the KEV and VEK upserts run
unconditionally (also when no label set is stored). -/
def McBucket.add_document_labels (s : McBucket) (id : DocId) (labels : List Label) :
    McBucket :=
  { documents := s.documents
    docs_labels :=
      match s.docs_labels id with
      | some has => upd s.docs_labels id (some (canonLabels (has ++ labels)))
      | none => s.docs_labels
    labels_kev := labels.foldl (fun t l => upsert_label t l.as_bytes id) s.labels_kev
    labels_vek := labels.foldl (fun t l => upsert_label t l.as_bytes_rev id) s.labels_vek }

/-- McBucket::remove_document_labels: if a label set is stored for the id the
dropped labels are retained away, the rest sorted, deduped and written back;
the KEV and VEK downserts run unconditionally. -/
def McBucket.remove_document_labels (s : McBucket) (id : DocId) (labels : List Label) :
    McBucket :=
  { documents := s.documents
    docs_labels :=
      match s.docs_labels id with
      | some has =>
        upd s.docs_labels id (some (canonLabels (has.filter (fun l => !(labels.contains l)))))
      | none => s.docs_labels
    labels_kev := labels.foldl (fun t l => downsert_label t l.as_bytes id) s.labels_kev
    labels_vek := labels.foldl (fun t l => downsert_label t l.as_bytes_rev id) s.labels_vek }

/-- McBucket::get: point read of the documents tree. -/
def McBucket.get (s : McBucket) (id : DocId) : Option Payload := s.documents id

/-- McBucket::get_document_labels: point read of the docs_labels tree. -/
def McBucket.get_document_labels (s : McBucket) (id : DocId) : Option (List Label) :=
  s.docs_labels id

/-- McBucket::get_label: point read of the KEV tree at the forward key. -/
def McBucket.get_label (s : McBucket) (l : Label) : Option (List DocId) :=
  s.labels_kev l.as_bytes

/-- McBucket::search_inclusive: collect the posting lists of the labels that
have one (absent labels are skipped), take the sorted deduped union of their
ids, then retain only the ids present in every collected list. -/
def McBucket.search_inclusive (s : McBucket) (labels : List Label) : List DocId :=
  let middle := labels.filterMap (fun l => s.labels_kev l.as_bytes)
  let results := canonList middle.flatten
  middle.foldl (fun acc ids => acc.filter (fun i => ids.contains i)) results

/-- A freshly created bucket: all four trees are empty. -/
def McBucket.empty : McBucket :=
  { documents := fun _ => none
    docs_labels := fun _ => none
    labels_kev := fun _ => none
    labels_vek := fun _ => none }

/-- States reachable from an empty bucket by committed operations.  The id
passed to insert is freshly generated by the engine (monotonic Uuid), hence
absent from both document trees. -/
inductive Reachable : McBucket → Prop
  | empty : Reachable McBucket.empty
  | insert (s : McBucket) (id : DocId) (doc : Payload) (labels : List Label) :
      Reachable s → s.documents id = none → s.docs_labels id = none →
      Reachable (s.insert id doc labels)
  | delete (s : McBucket) (id : DocId) : Reachable s → Reachable (s.delete id)
  | add (s : McBucket) (id : DocId) (labels : List Label) :
      Reachable s → Reachable (s.add_document_labels id labels)
  | remove (s : McBucket) (id : DocId) (labels : List Label) :
      Reachable s → Reachable (s.remove_document_labels id labels)

/-- Definition following the words of the spec, for comparison in claim C5:
the sorted, deduplicated version of a label list. -/
def spec_sort_dedup (labels : List Label) : List Label :=
  (labels.insertionSort labelLeR).destutter (· ≠ ·)

/-- A tree of posting lists all of whose stored lists are strictly sorted. -/
def TreeCanon (t : Tree (List Char) (List DocId)) : Prop :=
  ∀ k l, t k = some l → List.Pairwise idLt l

theorem chain'_and {α : Type} {R S : α → α → Prop} :
    ∀ {l : List α}, List.Chain' R l → List.Chain' S l →
      List.Chain' (fun a b => R a b ∧ S a b) l
  | [], _, _ => by simp
  | [_], _, _ => by simp
  | _ :: _ :: _, hR, hS => by
    rw [List.chain'_cons] at hR hS ⊢
    exact ⟨⟨hR.1, hS.1⟩, chain'_and hR.2 hS.2⟩

theorem ne_of_idLt {a b : DocId} (h : idLt a b) : a ≠ b := by
  unfold idLt at h
  intro he
  rw [Prod.ext_iff] at he
  omega

theorem pairwise_lt_canonList (l : List DocId) : List.Pairwise idLt (canonList l) := by
  have hs : List.Sorted idLe (l.insertionSort idLe) := List.sorted_insertionSort idLe l
  have hle : List.Pairwise idLe (canonList l) :=
    List.Pairwise.sublist (List.destutter_sublist _ _) hs
  have hne : List.Chain' (fun a b : DocId => a ≠ b) (canonList l) :=
    List.destutter_is_chain' _ _
  have hcomb := chain'_and hle.chain' hne
  have hlt : List.Chain' idLt (canonList l) := by
    refine List.Chain'.imp ?_ hcomb
    intro a b hab
    have h1 := hab.1
    have h2 := hab.2
    unfold idLe at h1
    unfold idLt
    rw [ne_eq, Prod.ext_iff] at h2
    omega
  exact List.chain'_iff_pairwise.mp hlt

theorem treeCanon_upd {t : Tree (List Char) (List DocId)} (ht : TreeCanon t)
    {k : List Char} {v : Option (List DocId)}
    (hv : ∀ l, v = some l → List.Pairwise idLt l) : TreeCanon (upd t k v) := by
  intro q l hq
  unfold upd at hq
  by_cases h : q = k
  · rw [if_pos h] at hq
    exact hv l hq
  · rw [if_neg h] at hq
    exact ht q l hq

theorem treeCanon_upsert {t : Tree (List Char) (List DocId)} (ht : TreeCanon t)
    (k : List Char) (id : DocId) : TreeCanon (upsert_label t k id) := by
  unfold upsert_label
  cases h : t k with
  | some docs =>
    refine treeCanon_upd ht ?_
    intro l hl
    obtain rfl := Option.some.inj hl
    exact pairwise_lt_canonList _
  | none =>
    refine treeCanon_upd ht ?_
    intro l hl
    obtain rfl := Option.some.inj hl
    simp

theorem treeCanon_downsert {t : Tree (List Char) (List DocId)} (ht : TreeCanon t)
    (k : List Char) (id : DocId) : TreeCanon (downsert_label t k id) := by
  unfold downsert_label
  cases h : t k with
  | some ids =>
    dsimp only
    by_cases hlen : ids.length = 1
    · rw [if_pos hlen]
      refine treeCanon_upd ht ?_
      intro l hl
      cases hl
    · rw [if_neg hlen]
      refine treeCanon_upd ht ?_
      intro l hl
      obtain rfl := Option.some.inj hl
      exact List.Pairwise.sublist (List.filter_sublist _) (ht k ids h)
  | none => exact ht

theorem treeCanon_foldl
    (f : Tree (List Char) (List DocId) → Label → Tree (List Char) (List DocId))
    (hf : ∀ t l, TreeCanon t → TreeCanon (f t l)) :
    ∀ (labels : List Label) (t : Tree (List Char) (List DocId)),
      TreeCanon t → TreeCanon (labels.foldl f t)
  | [], _, ht => ht
  | l :: rest, t, ht => treeCanon_foldl f hf rest (f t l) (hf t l ht)

theorem reachable_treeCanon {s : McBucket} (h : Reachable s) :
    TreeCanon s.labels_kev ∧ TreeCanon s.labels_vek := by
  induction h with
  | empty =>
    constructor <;> · intro k l hl; cases hl
  | insert s id doc labels _ _ _ ih =>
    exact ⟨treeCanon_foldl _ (fun t l ht => treeCanon_upsert ht _ _) labels _ ih.1,
           treeCanon_foldl _ (fun t l ht => treeCanon_upsert ht _ _) labels _ ih.2⟩
  | delete s id _ ih =>
    unfold McBucket.delete
    cases hd : s.docs_labels id with
    | some labels =>
      exact ⟨treeCanon_foldl _ (fun t l ht => treeCanon_downsert ht _ _) labels _ ih.1,
             treeCanon_foldl _ (fun t l ht => treeCanon_downsert ht _ _) labels _ ih.2⟩
    | none => exact ih
  | add s id labels _ ih =>
    exact ⟨treeCanon_foldl _ (fun t l ht => treeCanon_upsert ht _ _) labels _ ih.1,
           treeCanon_foldl _ (fun t l ht => treeCanon_upsert ht _ _) labels _ ih.2⟩
  | remove s id labels _ ih =>
    exact ⟨treeCanon_foldl _ (fun t l ht => treeCanon_downsert ht _ _) labels _ ih.1,
           treeCanon_foldl _ (fun t l ht => treeCanon_downsert ht _ _) labels _ ih.2⟩

theorem splitOnce_key (v : List Char) :
    ∀ (k : List Char), '=' ∉ k → splitOnce '=' (k ++ '=' :: v) = some (k, v)
  | [], _ => by simp [splitOnce]
  | c :: cs, hk => by
    have hc : ¬ c = '=' := fun h => hk (by simp [h])
    have ih := splitOnce_key v cs (fun h => hk (List.mem_cons_of_mem c h))
    simp [splitOnce, hc, ih]

/-- Claim C1: the edge symmetry invariant fails on the code.  Starting from
an empty bucket, insert document (0,1) with label k=v, then call
remove_document_labels for the absent id (0,2) with that label: the
docs_labels entry of (0,1) still holds the label, but the KEV posting list
for the label is gone, because the downserts run even though the document
(0,2) does not exist and the singleton posting list is removed outright. -/
theorem edge_symmetry_violated :
    ((McBucket.empty.insert (0,1) [] [⟨"k","v"⟩]).remove_document_labels (0,2)
        [⟨"k","v"⟩]).docs_labels (0,1) = some [⟨"k","v"⟩]
    ∧ ((McBucket.empty.insert (0,1) [] [⟨"k","v"⟩]).remove_document_labels (0,2)
        [⟨"k","v"⟩]).labels_kev (Label.as_bytes ⟨"k","v"⟩) = none := by
  decide

/-- Claim C2: add_document_labels with an id that has no docs_labels entry is
not a no-op: the KEV tree changes from empty to a posting list holding the
absent id, because the upsert loop runs outside the docs_labels guard. -/
theorem add_labels_on_absent_not_noop :
    McBucket.empty.docs_labels (0,1) = none
    ∧ McBucket.empty.labels_kev (Label.as_bytes ⟨"k","v"⟩) = none
    ∧ (McBucket.empty.add_document_labels (0,1) [⟨"k","v"⟩]).labels_kev
        (Label.as_bytes ⟨"k","v"⟩) = some [(0,1)] := by
  decide

/-- Claim C3: search_inclusive does not treat an absent posting list as the
empty set.  With one document labelled k=v, a query for k=v together with
the unindexed label x=y returns the document instead of the empty list. -/
theorem search_absent_label_not_empty :
    (McBucket.empty.insert (0,1) [] [⟨"k","v"⟩]).labels_kev
        (Label.as_bytes ⟨"x","y"⟩) = none
    ∧ (McBucket.empty.insert (0,1) [] [⟨"k","v"⟩]).search_inclusive
        [⟨"k","v"⟩, ⟨"x","y"⟩] = [(0,1)] := by
  decide

/-- Claim C4: downsert does not retract by whole-pair equality.  From a
stored posting list holding (1,2) and (1,3), retracting the id (1,9), which
is equal to neither entry, removes both, because the retain condition keeps
only entries differing from the retracted id in both halves. -/
theorem downsert_half_match_removes :
    downsert_label (fun q => if q = ['x'] then some [(1,2),(1,3)] else none) ['x'] (1,9) ['x']
      = some [] := by
  decide

/-- Claim C5 counterexample: insert stores the label list exactly as passed,
so with an unsorted input list get_document_labels does not return the
sorted deduplicated version. -/
theorem insert_labels_not_sort_dedup :
    (McBucket.empty.insert (0,1) [] [⟨"b","v"⟩, ⟨"a","v"⟩]).get_document_labels (0,1)
      ≠ some (spec_sort_dedup [⟨"b","v"⟩, ⟨"a","v"⟩]) := by
  decide

/-- Claim C5 (amended): insert round-trip.  After insert(payload, labels)
returning id, get(id) returns the payload and get_document_labels(id)
returns the label list exactly as passed, neither sorted nor deduplicated. -/
theorem insert_roundtrip (s : McBucket) (id : DocId) (doc : Payload) (labels : List Label) :
    (s.insert id doc labels).get id = some doc
    ∧ (s.insert id doc labels).get_document_labels id = some labels := by
  refine ⟨?_, ?_⟩ <;>
    simp [McBucket.insert, McBucket.get, McBucket.get_document_labels, upd]

/-- Claim C6: remove_document_labels is not idempotent.  Two documents
(1,10) and (2,20) share label k=v.  The first removal for (1,10) trims the
posting list to the singleton holding (2,20); repeating the identical call
deletes that singleton outright, so calling twice differs from calling
once. -/
theorem remove_labels_not_idempotent :
    (((McBucket.empty.insert (1,10) [] [⟨"k","v"⟩]).insert (2,20) []
        [⟨"k","v"⟩]).remove_document_labels (1,10) [⟨"k","v"⟩]).labels_kev
      (Label.as_bytes ⟨"k","v"⟩) = some [(2,20)]
    ∧ ((((McBucket.empty.insert (1,10) [] [⟨"k","v"⟩]).insert (2,20) []
        [⟨"k","v"⟩]).remove_document_labels (1,10)
        [⟨"k","v"⟩]).remove_document_labels (1,10) [⟨"k","v"⟩]).labels_kev
      (Label.as_bytes ⟨"k","v"⟩) = none := by
  decide

/-- Claim C7: an empty posting list can be stored.  Documents (1,2) and
(1,3) share label k=v; remove_document_labels for the absent id (1,9)
downserts the two-element list, and the half-matching retain removes both
entries, so the key stays present with an empty stored list. -/
theorem empty_posting_list_stored :
    (((McBucket.empty.insert (1,2) [] [⟨"k","v"⟩]).insert (1,3) []
        [⟨"k","v"⟩]).remove_document_labels (1,9) [⟨"k","v"⟩]).labels_kev
      (Label.as_bytes ⟨"k","v"⟩) = some [] := by
  decide

/-- Claim C8: in every reachable committed state, every posting list stored
in the KEV or VEK tree is strictly sorted in the id order and free of
duplicates. -/
theorem posting_lists_canonical (s : McBucket) (h : Reachable s) (k : List Char)
    (l : List DocId) (hk : s.labels_kev k = some l ∨ s.labels_vek k = some l) :
    List.Pairwise idLt l ∧ l.Nodup := by
  have hc := reachable_treeCanon h
  have hp : List.Pairwise idLt l := hk.elim (fun h1 => hc.1 k l h1) (fun h1 => hc.2 k l h1)
  exact ⟨hp, hp.imp ne_of_idLt⟩

/-- Witness for claim C8 at the state reached by one insert. -/
theorem posting_lists_canonical_witness :
    List.Pairwise idLt [((0:Nat),(1:Nat))] ∧ List.Nodup [((0:Nat),(1:Nat))] :=
  posting_lists_canonical (McBucket.empty.insert (0,1) [] [⟨"k","v"⟩])
    (Reachable.insert _ _ _ _ Reachable.empty rfl rfl)
    (Label.as_bytes ⟨"k","v"⟩) [(0,1)] (Or.inl (by decide))

/-- Claim C9: for every label whose key contains no separator char, parsing
the forward byte form returns the original label. -/
theorem label_roundtrip (l : Label) (h : '=' ∉ l.key.data) :
    Label.from_bytes l.as_bytes = some l := by
  unfold Label.from_bytes Label.as_bytes
  rw [splitOnce_key l.value.data l.key.data h]

/-- Witness for claim C9 at a concrete label. -/
theorem label_roundtrip_witness :
    '=' ∉ ("a" : String).data
    ∧ Label.from_bytes (Label.as_bytes ⟨"a","b"⟩) = some ⟨"a","b"⟩ :=
  ⟨by decide, label_roundtrip ⟨"a","b"⟩ (by decide)⟩

/-- Claim C10: downsert of any id from a key whose stored posting list has
exactly one entry removes the key entirely, with no condition relating the
stored entry to the retracted id. -/
theorem downsert_singleton_removes (t : Tree (List Char) (List DocId)) (k : List Char)
    (id : DocId) (ids : List DocId) (h1 : t k = some ids) (h2 : ids.length = 1) :
    downsert_label t k id k = none := by
  unfold downsert_label
  simp only [h1]
  rw [if_pos h2]
  simp [upd]

/-- Witness for claim C10: the single stored entry differs from the
retracted id, yet the key is removed. -/
theorem downsert_singleton_removes_witness :
    ((fun q => if q = ['x'] then some [((5:Nat),(5:Nat))] else none) :
        Tree (List Char) (List DocId)) ['x'] = some [(5,5)]
    ∧ ([((5:Nat),(5:Nat))] : List DocId).length = 1
    ∧ downsert_label (fun q => if q = ['x'] then some [(5,5)] else none) ['x'] (1,1) ['x']
        = none :=
  ⟨by decide, by decide,
    downsert_singleton_removes _ ['x'] (1,1) [(5,5)] (by decide) (by decide)⟩

end Mc5
